import Mathlib

/-!
Formal model of the lithography toolkit core (`lithography_toolkit.py`):
`get_referential`, `get_black_points` and `transform_coordinates`,
together with proofs of the specified geometric and mapping properties.
Vectors are modelled over the exact reals, the grid mapping over the
rationals (only field operations occur there), so that the grid side is
fully executable.
-/

/-- Three-component real vector, the model of a length-3 numpy array.
Points and vectors are not distinguished, as in the source. -/
@[ext]
structure Vec3 where
  x : ℝ
  y : ℝ
  z : ℝ

instance : Zero Vec3 where
  zero := ⟨0, 0, 0⟩

instance : Add Vec3 where
  add u v := ⟨u.x + v.x, u.y + v.y, u.z + v.z⟩

instance : Sub Vec3 where
  sub u v := ⟨u.x - v.x, u.y - v.y, u.z - v.z⟩

instance : SMul ℝ Vec3 where
  smul c v := ⟨c * v.x, c * v.y, c * v.z⟩

@[simp]
lemma Vec3.zero_def : (0 : Vec3) = ⟨0, 0, 0⟩ := rfl

@[simp]
lemma Vec3.zero_x : (0 : Vec3).x = 0 := rfl

@[simp]
lemma Vec3.zero_y : (0 : Vec3).y = 0 := rfl

@[simp]
lemma Vec3.zero_z : (0 : Vec3).z = 0 := rfl

@[simp]
lemma Vec3.add_def (u v : Vec3) : u + v = ⟨u.x + v.x, u.y + v.y, u.z + v.z⟩ := rfl

@[simp]
lemma Vec3.sub_def (u v : Vec3) : u - v = ⟨u.x - v.x, u.y - v.y, u.z - v.z⟩ := rfl

@[simp]
lemma Vec3.smul_def (c : ℝ) (v : Vec3) : c • v = ⟨c * v.x, c * v.y, c * v.z⟩ := rfl

/-- Dot product on `Vec3`. -/
def dot3 (u v : Vec3) : ℝ := u.x * v.x + u.y * v.y + u.z * v.z

/-- Cross product on `Vec3`, the model of `numpy.cross` on length-3 arrays. -/
def cross3 (u v : Vec3) : Vec3 :=
  ⟨u.y * v.z - u.z * v.y, u.z * v.x - u.x * v.z, u.x * v.y - u.y * v.x⟩

/-- Euclidean norm, the model of `numpy.linalg.norm`. -/
noncomputable def norm3 (v : Vec3) : ℝ := Real.sqrt (dot3 v v)

/-- Componentwise division of a vector by a scalar, the model of the numpy
expression `v / c` for an array `v` and scalar `c`. -/
noncomputable def vdiv (v : Vec3) (c : ℝ) : Vec3 := ⟨v.x / c, v.y / c, v.z / c⟩

/-- Normalisation `v / norm(v)` exactly as it appears, inlined, in
`get_referential`. -/
noncomputable def normalize3 (v : Vec3) : Vec3 := vdiv v (norm3 v)

/-- Model of `get_referential(O, A, B)` from `lithography_toolkit.py`
(lines 47-69): `eX = OA/|OA|`, `v = OB/|OB|`, `eZ = (eX x v)/|eX x v|`,
`eY = eZ x eX`.  The source performs no validation: every input produces
a result tuple. -/
noncomputable def get_referential (O A B : Vec3) : Vec3 × Vec3 × Vec3 :=
  let OA := A - O
  let eX := normalize3 OA
  let OB := B - O
  let v := normalize3 OB
  let eZ := normalize3 (cross3 eX v)
  let eY := cross3 eZ eX
  (eX, eY, eZ)

/-- Model of `transform_coordinates(x, y, z, O, eX, eY, eZ)` from
`lithography_toolkit.py` (lines 100-122), componentwise
`O + x*eX + y*eY + z*eZ`. -/
noncomputable def transform_coordinates (x y z : ℝ) (O eX eY eZ : Vec3) : ℝ × ℝ × ℝ :=
  (O.x + x * eX.x + y * eY.x + z * eZ.x,
   O.y + x * eX.y + y * eY.y + z * eZ.y,
   O.z + x * eX.z + y * eY.z + z * eZ.z)

/-- The only failure the source code can produce in `get_black_points`:
the `ValueError` numpy raises when `Ny, Nx = data.shape` unpacks the
one-dimensional shape of an empty array.  No named error classes exist
anywhere in the repository. -/
inductive NpError where
  | valueError
deriving DecidableEq

/-- Model of `numpy.linspace(a, b, n)` with the endpoint included:
`n` evenly spaced rationals from `a` to `b`; `n = 1` yields `[a]`,
exactly as numpy does. -/
def linspace (a b : ℚ) (n : ℕ) : List ℚ :=
  if n = 1 then [a]
  else (List.range n).map (fun (i : ℕ) => a + (b - a) * (i : ℚ) / ((n : ℚ) - 1))

/-- Row contribution of the boolean-mask selection `xx[black], yy[black]`:
the pairs `(x value, yv)` for the zero cells of one grid row, left to
right. -/
def maskRow (row : List ℤ) (xs : List ℚ) (yv : ℚ) : List (ℚ × ℚ) :=
  match row, xs with
  | v :: vs, xc :: xcs =>
    if v = 0 then (xc, yv) :: maskRow vs xcs yv else maskRow vs xcs yv
  | _, _ => []

/-- Model of `meshgrid` followed by boolean masking `xx[black], yy[black]`:
row-major selection of the coordinates of the zero cells. -/
def maskSelect (rows : List (List ℤ)) (xs ys : List ℚ) : List (ℚ × ℚ) :=
  match rows, ys with
  | r :: rs, yv :: yvs => maskRow r xs yv ++ maskSelect rs xs yvs
  | _, _ => []

/-- Model of `get_black_points(data, width, height)` from
`lithography_toolkit.py` (lines 71-98).  A list of lists models the 2D
numpy integer array (rows of equal length); the empty list models
`np.array([])`, whose one-dimensional shape makes the unpacking
`Ny, Nx = data.shape` raise a `ValueError`.  The source performs no
validation of `width` or `height`. -/
def get_black_points (data : List (List ℤ)) (width height : ℚ) :
    Except NpError (List ℚ × List ℚ) :=
  match data with
  | [] => Except.error NpError.valueError
  | r :: rs =>
    let Nx := r.length
    let Ny := (r :: rs).length
    let xs := linspace (-width / 2) (width / 2) Nx
    let ys := linspace (height / 2) (-height / 2) Ny
    let ps := maskSelect (r :: rs) xs ys
    Except.ok (ps.map Prod.fst, ps.map Prod.snd)

/-- The x coordinate the specification assigns to column `i` of `Nx`
columns: linear from `-width/2` (leftmost column) to `width/2`
(rightmost column).  Stated from the specification text, to be compared
with the code. -/
def xLin (width : ℚ) (Nx i : ℕ) : ℚ := -width / 2 + i * (width / ((Nx : ℚ) - 1))

/-- The y coordinate the specification assigns to row `j` of `Ny` rows:
linear from `height/2` (top row) down to `-height/2` (bottom row). -/
def yLin (height : ℚ) (Ny j : ℕ) : ℚ := height / 2 - j * (height / ((Ny : ℚ) - 1))

/-- Spec-side enumeration of one row: one `(fx i, yv)` pair for each cell
of value `0`, no pair for any other cell, left to right, `i` being the
absolute column index. -/
def specRow (row : List ℤ) (i : ℕ) (fx : ℕ → ℚ) (yv : ℚ) : List (ℚ × ℚ) :=
  match row with
  | [] => []
  | v :: vs =>
    if v = 0 then (fx i, yv) :: specRow vs (i + 1) fx yv
    else specRow vs (i + 1) fx yv

/-- Spec-side enumeration of the grid in row-major order, `j` being the
absolute row index. -/
def specRows (rows : List (List ℤ)) (j : ℕ) (fx fy : ℕ → ℚ) : List (ℚ × ℚ) :=
  match rows with
  | [] => []
  | r :: rs => specRow r 0 fx (fy j) ++ specRows rs (j + 1) fx fy

/-- The exposed-cell pairs exactly as the specification describes them:
row-major order, one pair per zero cell, coordinates given by the linear
interpolation formulas. -/
def specExposed (data : List (List ℤ)) (width height : ℚ) : List (ℚ × ℚ) :=
  specRows data 0 (xLin width (data.headD []).length) (yLin height data.length)

lemma dot3_comm (u v : Vec3) : dot3 u v = dot3 v u := by
  unfold dot3; ring

lemma dot3_self_nonneg (v : Vec3) : 0 ≤ dot3 v v := by
  unfold dot3; nlinarith [sq_nonneg v.x, sq_nonneg v.y, sq_nonneg v.z]

lemma eq_zero_of_dot3_self_eq_zero (v : Vec3) (h : dot3 v v = 0) : v = 0 := by
  unfold dot3 at h
  have hx : v.x = 0 := by nlinarith [sq_nonneg v.x, sq_nonneg v.y, sq_nonneg v.z]
  have hy : v.y = 0 := by nlinarith [sq_nonneg v.x, sq_nonneg v.y, sq_nonneg v.z]
  have hz : v.z = 0 := by nlinarith [sq_nonneg v.x, sq_nonneg v.y, sq_nonneg v.z]
  ext <;> simp [hx, hy, hz]

lemma dot3_self_pos (v : Vec3) (h : v ≠ 0) : 0 < dot3 v v := by
  rcases lt_or_eq_of_le (dot3_self_nonneg v) with h1 | h1
  · exact h1
  · exact absurd (eq_zero_of_dot3_self_eq_zero v h1.symm) h

lemma norm3_pos (v : Vec3) (h : v ≠ 0) : 0 < norm3 v := by
  unfold norm3
  rw [Real.sqrt_pos]
  exact dot3_self_pos v h

lemma norm3_mul_self (v : Vec3) : norm3 v * norm3 v = dot3 v v :=
  Real.mul_self_sqrt (dot3_self_nonneg v)

lemma dot3_vdiv_vdiv (u v : Vec3) (c d : ℝ) :
    dot3 (vdiv u c) (vdiv v d) = dot3 u v / (c * d) := by
  simp only [dot3, vdiv]; ring

lemma dot3_vdiv_right (u v : Vec3) (c : ℝ) : dot3 u (vdiv v c) = dot3 u v / c := by
  simp only [dot3, vdiv]; ring

lemma cross3_vdiv_vdiv (u v : Vec3) (c d : ℝ) :
    cross3 (vdiv u c) (vdiv v d) = vdiv (cross3 u v) (c * d) := by
  simp only [cross3, vdiv, Vec3.mk.injEq]
  refine ⟨?_, ?_, ?_⟩ <;> ring

lemma vdiv_ne_zero (u : Vec3) (c : ℝ) (hu : u ≠ 0) (hc : c ≠ 0) : vdiv u c ≠ 0 := by
  intro h0
  apply hu
  have hx := congrArg Vec3.x h0
  have hy := congrArg Vec3.y h0
  have hz := congrArg Vec3.z h0
  simp only [vdiv, Vec3.zero_def] at hx hy hz
  ext
  · exact (div_eq_zero_iff.mp hx).resolve_right hc
  · exact (div_eq_zero_iff.mp hy).resolve_right hc
  · exact (div_eq_zero_iff.mp hz).resolve_right hc

lemma dot3_normalize3_self (v : Vec3) (h : v ≠ 0) :
    dot3 (normalize3 v) (normalize3 v) = 1 := by
  unfold normalize3
  rw [dot3_vdiv_vdiv, norm3_mul_self]
  exact div_self (dot3_self_pos v h).ne'

lemma norm3_eq_one_of_dot3 (v : Vec3) (h : dot3 v v = 1) : norm3 v = 1 := by
  unfold norm3; rw [h, Real.sqrt_one]

lemma norm3_normalize3 (v : Vec3) (h : v ≠ 0) : norm3 (normalize3 v) = 1 :=
  norm3_eq_one_of_dot3 _ (dot3_normalize3_self v h)

lemma dot3_cross3_left (u v : Vec3) : dot3 u (cross3 u v) = 0 := by
  simp only [dot3, cross3]; ring

lemma dot3_cross3_right (u v : Vec3) : dot3 v (cross3 u v) = 0 := by
  simp only [dot3, cross3]; ring

lemma dot3_cross3_lagrange (u v : Vec3) :
    dot3 (cross3 u v) (cross3 u v) = dot3 u u * dot3 v v - dot3 u v * dot3 u v := by
  simp only [dot3, cross3]; ring

lemma cross3_cross3 (a b c : Vec3) :
    cross3 a (cross3 b c) = dot3 a c • b - dot3 a b • c := by
  simp only [cross3, dot3, Vec3.smul_def, Vec3.sub_def, Vec3.mk.injEq]
  refine ⟨?_, ?_, ?_⟩ <;> ring

lemma vsub_eq_zero_iff (u v : Vec3) : u - v = 0 ↔ u = v := by
  simp [Vec3.sub_def, Vec3.zero_def, Vec3.mk.injEq, Vec3.ext_iff, sub_eq_zero]

lemma get_referential_def (O A B : Vec3) :
    get_referential O A B =
      (normalize3 (A - O),
       cross3 (normalize3 (cross3 (normalize3 (A - O)) (normalize3 (B - O))))
         (normalize3 (A - O)),
       normalize3 (cross3 (normalize3 (A - O)) (normalize3 (B - O)))) := rfl

/-- C1: for every non-degenerate reference triple (O, A, B) — meaning A
is not O, B is not O, and A−O is not parallel to B−O (nonzero cross
product) — the triple (eX, eY, eZ) returned by `get_referential` is
orthonormal and right-handed: each vector has unit norm, the pairwise
dot products vanish, and eZ = eX × eY.  No perpendicularity of B−O to
A−O is assumed. -/
theorem get_referential_orthonormal_right_handed (O A B : Vec3)
    (hA : A ≠ O) (hB : B ≠ O) (hpar : cross3 (A - O) (B - O) ≠ 0) :
    norm3 (get_referential O A B).1 = 1 ∧
    norm3 (get_referential O A B).2.1 = 1 ∧
    norm3 (get_referential O A B).2.2 = 1 ∧
    dot3 (get_referential O A B).1 (get_referential O A B).2.1 = 0 ∧
    dot3 (get_referential O A B).1 (get_referential O A B).2.2 = 0 ∧
    dot3 (get_referential O A B).2.1 (get_referential O A B).2.2 = 0 ∧
    (get_referential O A B).2.2 =
      cross3 (get_referential O A B).1 (get_referential O A B).2.1 := by
  have hOA : A - O ≠ 0 := fun h => hA ((vsub_eq_zero_iff A O).mp h)
  have hOB : B - O ≠ 0 := fun h => hB ((vsub_eq_zero_iff B O).mp h)
  rw [get_referential_def]
  set eX := normalize3 (A - O) with hEX
  set v := normalize3 (B - O) with hv
  have hcv : cross3 eX v = vdiv (cross3 (A - O) (B - O)) (norm3 (A - O) * norm3 (B - O)) := by
    rw [hEX, hv]; unfold normalize3; exact cross3_vdiv_vdiv _ _ _ _
  have hcvne : cross3 eX v ≠ 0 := by
    rw [hcv]
    exact vdiv_ne_zero _ _ hpar
      (mul_ne_zero (norm3_pos _ hOA).ne' (norm3_pos _ hOB).ne')
  set eZ := normalize3 (cross3 eX v) with hEZ
  set eY := cross3 eZ eX with hEY
  have dXX : dot3 eX eX = 1 := dot3_normalize3_self _ hOA
  have dZZ : dot3 eZ eZ = 1 := dot3_normalize3_self _ hcvne
  have dXZ : dot3 eX eZ = 0 := by
    rw [hEZ]; unfold normalize3
    rw [dot3_vdiv_right, dot3_cross3_left, zero_div]
  have dXY : dot3 eX eY = 0 := by rw [hEY]; exact dot3_cross3_right eZ eX
  have dYZ : dot3 eY eZ = 0 := by rw [hEY, dot3_comm]; exact dot3_cross3_left eZ eX
  have dYY : dot3 eY eY = 1 := by
    rw [hEY, dot3_cross3_lagrange, dZZ, dXX]
    have hZX : dot3 eZ eX = 0 := by rw [dot3_comm]; exact dXZ
    rw [hZX]; ring
  refine ⟨norm3_eq_one_of_dot3 _ dXX, norm3_eq_one_of_dot3 _ dYY,
    norm3_eq_one_of_dot3 _ dZZ, dXY, dXZ, dYZ, ?_⟩
  rw [hEY, cross3_cross3, dXX, dXZ]
  ext <;> simp

/-- Witness for C1 at the concrete triple O = (0,0,0), A = (1,0,0),
B = (1,1,0), where B−O is not perpendicular to A−O. -/
theorem get_referential_orthonormal_right_handed_witness :
    ((⟨1, 0, 0⟩ : Vec3) ≠ ⟨0, 0, 0⟩) ∧ ((⟨1, 1, 0⟩ : Vec3) ≠ ⟨0, 0, 0⟩) ∧
    cross3 ((⟨1, 0, 0⟩ : Vec3) - ⟨0, 0, 0⟩) ((⟨1, 1, 0⟩ : Vec3) - ⟨0, 0, 0⟩) ≠ 0 ∧
    (norm3 (get_referential ⟨0, 0, 0⟩ ⟨1, 0, 0⟩ ⟨1, 1, 0⟩).1 = 1 ∧
     norm3 (get_referential ⟨0, 0, 0⟩ ⟨1, 0, 0⟩ ⟨1, 1, 0⟩).2.1 = 1 ∧
     norm3 (get_referential ⟨0, 0, 0⟩ ⟨1, 0, 0⟩ ⟨1, 1, 0⟩).2.2 = 1 ∧
     dot3 (get_referential ⟨0, 0, 0⟩ ⟨1, 0, 0⟩ ⟨1, 1, 0⟩).1
       (get_referential ⟨0, 0, 0⟩ ⟨1, 0, 0⟩ ⟨1, 1, 0⟩).2.1 = 0 ∧
     dot3 (get_referential ⟨0, 0, 0⟩ ⟨1, 0, 0⟩ ⟨1, 1, 0⟩).1
       (get_referential ⟨0, 0, 0⟩ ⟨1, 0, 0⟩ ⟨1, 1, 0⟩).2.2 = 0 ∧
     dot3 (get_referential ⟨0, 0, 0⟩ ⟨1, 0, 0⟩ ⟨1, 1, 0⟩).2.1
       (get_referential ⟨0, 0, 0⟩ ⟨1, 0, 0⟩ ⟨1, 1, 0⟩).2.2 = 0 ∧
     (get_referential ⟨0, 0, 0⟩ ⟨1, 0, 0⟩ ⟨1, 1, 0⟩).2.2 =
       cross3 (get_referential ⟨0, 0, 0⟩ ⟨1, 0, 0⟩ ⟨1, 1, 0⟩).1
         (get_referential ⟨0, 0, 0⟩ ⟨1, 0, 0⟩ ⟨1, 1, 0⟩).2.1) := by
  have h1 : (⟨1, 0, 0⟩ : Vec3) ≠ ⟨0, 0, 0⟩ := by simp [Vec3.mk.injEq]
  have h2 : (⟨1, 1, 0⟩ : Vec3) ≠ ⟨0, 0, 0⟩ := by simp [Vec3.mk.injEq]
  have h3 : cross3 ((⟨1, 0, 0⟩ : Vec3) - ⟨0, 0, 0⟩) ((⟨1, 1, 0⟩ : Vec3) - ⟨0, 0, 0⟩) ≠ 0 := by
    norm_num [cross3, Vec3.ext_iff]
  exact ⟨h1, h2, h3, get_referential_orthonormal_right_handed _ _ _ h1 h2 h3⟩

lemma cross3_zero_left (v : Vec3) : cross3 0 v = 0 := by
  simp [cross3, Vec3.ext_iff]

lemma vdiv_zero_vec (c : ℝ) : vdiv 0 c = 0 := by
  simp [vdiv, Vec3.ext_iff]

lemma normalize3_zero : normalize3 0 = 0 := by
  unfold normalize3
  exact vdiv_zero_vec _

lemma norm3_zero : norm3 0 = 0 := by
  unfold norm3
  have h : dot3 0 0 = 0 := by simp [dot3]
  rw [h, Real.sqrt_zero]

/-- C2 (amended): a degenerate reference triple — zero cross product of
A−O and B−O, which covers A = O, B = O and parallel directions — does
not make `get_referential` fail: the function still returns a tuple, in
which eY and eZ are the zero vector (the floating-point code returns NaN
components there), so no valid frame and no raised error. -/
theorem get_referential_degenerate_returns_zero (O A B : Vec3)
    (hdeg : cross3 (A - O) (B - O) = 0) :
    (get_referential O A B).2.1 = 0 ∧ (get_referential O A B).2.2 = 0 := by
  rw [get_referential_def]
  have hc : cross3 (normalize3 (A - O)) (normalize3 (B - O)) = 0 := by
    unfold normalize3
    rw [cross3_vdiv_vdiv, hdeg, vdiv_zero_vec]
  rw [hc, normalize3_zero]
  exact ⟨cross3_zero_left _, rfl⟩

/-- Witness for C2 at the degenerate triple named by the claim:
O = (0,0,0), A = (0,0,0), B = (0,1,0). -/
theorem get_referential_degenerate_returns_zero_witness :
    cross3 ((⟨0, 0, 0⟩ : Vec3) - ⟨0, 0, 0⟩) ((⟨0, 1, 0⟩ : Vec3) - ⟨0, 0, 0⟩) = 0 ∧
    ((get_referential ⟨0, 0, 0⟩ ⟨0, 0, 0⟩ ⟨0, 1, 0⟩).2.1 = 0 ∧
     (get_referential ⟨0, 0, 0⟩ ⟨0, 0, 0⟩ ⟨0, 1, 0⟩).2.2 = 0) := by
  have hd : cross3 ((⟨0, 0, 0⟩ : Vec3) - ⟨0, 0, 0⟩) ((⟨0, 1, 0⟩ : Vec3) - ⟨0, 0, 0⟩) = 0 := by
    norm_num [cross3, Vec3.ext_iff]
  exact ⟨hd, get_referential_degenerate_returns_zero _ _ _ hd⟩

/-- Counterexample to C2 as stated: at the degenerate input
O = A = (0,0,0), B = (0,1,0) the call does not fail — the source has no
error path at all — it returns the triple of zero vectors (the float
code returns NaNs), so in particular the returned eX is not a unit
vector. -/
theorem get_referential_degenerate_counterexample :
    get_referential ⟨0, 0, 0⟩ ⟨0, 0, 0⟩ ⟨0, 1, 0⟩ = ((0 : Vec3), (0 : Vec3), (0 : Vec3)) ∧
    norm3 (get_referential ⟨0, 0, 0⟩ ⟨0, 0, 0⟩ ⟨0, 1, 0⟩).1 ≠ 1 := by
  have e0 : (⟨0, 0, 0⟩ : Vec3) - ⟨0, 0, 0⟩ = 0 := by simp [Vec3.ext_iff]
  have hx : normalize3 ((⟨0, 0, 0⟩ : Vec3) - ⟨0, 0, 0⟩) = 0 := by
    rw [e0, normalize3_zero]
  have h1 : (get_referential ⟨0, 0, 0⟩ ⟨0, 0, 0⟩ ⟨0, 1, 0⟩).1 = 0 := hx
  constructor
  · rw [get_referential_def, hx, cross3_zero_left, normalize3_zero, cross3_zero_left]
  · rw [h1, norm3_zero]
    norm_num

/-- C9: translation invariance — shifting the whole reference triple by
a constant offset T leaves the computed basis unchanged. -/
theorem get_referential_translation_invariant (O A B T : Vec3)
    (hA : A ≠ O) (hB : B ≠ O) (hpar : cross3 (A - O) (B - O) ≠ 0) :
    get_referential (O + T) (A + T) (B + T) = get_referential O A B := by
  have h1 : A + T - (O + T) = A - O := by ext <;> simp
  have h2 : B + T - (O + T) = B - O := by ext <;> simp
  rw [get_referential_def, get_referential_def, h1, h2]

/-- Witness for C9 at O = (0,0,0), A = (1,0,0), B = (0,1,0),
T = (1,2,3). -/
theorem get_referential_translation_invariant_witness :
    ((⟨1, 0, 0⟩ : Vec3) ≠ ⟨0, 0, 0⟩) ∧ ((⟨0, 1, 0⟩ : Vec3) ≠ ⟨0, 0, 0⟩) ∧
    cross3 ((⟨1, 0, 0⟩ : Vec3) - ⟨0, 0, 0⟩) ((⟨0, 1, 0⟩ : Vec3) - ⟨0, 0, 0⟩) ≠ 0 ∧
    get_referential ((⟨0, 0, 0⟩ : Vec3) + ⟨1, 2, 3⟩) ((⟨1, 0, 0⟩ : Vec3) + ⟨1, 2, 3⟩)
        ((⟨0, 1, 0⟩ : Vec3) + ⟨1, 2, 3⟩) =
      get_referential ⟨0, 0, 0⟩ ⟨1, 0, 0⟩ ⟨0, 1, 0⟩ := by
  have h1 : (⟨1, 0, 0⟩ : Vec3) ≠ ⟨0, 0, 0⟩ := by simp [Vec3.mk.injEq]
  have h2 : (⟨0, 1, 0⟩ : Vec3) ≠ ⟨0, 0, 0⟩ := by simp [Vec3.mk.injEq]
  have h3 : cross3 ((⟨1, 0, 0⟩ : Vec3) - ⟨0, 0, 0⟩) ((⟨0, 1, 0⟩ : Vec3) - ⟨0, 0, 0⟩) ≠ 0 := by
    norm_num [cross3, Vec3.ext_iff]
  exact ⟨h1, h2, h3, get_referential_translation_invariant _ _ _ _ h1 h2 h3⟩

lemma norm3_smul_nonneg (s : ℝ) (hs : 0 ≤ s) (v : Vec3) :
    norm3 (s • v) = s * norm3 v := by
  unfold norm3
  have hd : dot3 (s • v) (s • v) = s ^ 2 * dot3 v v := by
    simp [dot3]; ring
  rw [hd, Real.sqrt_mul (sq_nonneg s), Real.sqrt_sq hs]

lemma normalize3_smul_pos (s : ℝ) (hs : 0 < s) (v : Vec3) :
    normalize3 (s • v) = normalize3 v := by
  unfold normalize3 vdiv
  rw [norm3_smul_nonneg s hs.le]
  simp only [Vec3.smul_def]
  ext <;> exact mul_div_mul_left _ _ hs.ne'

/-- C8: scale invariance — replacing A by O + s(A−O) and B by O + t(B−O)
for positive s, t leaves the computed basis unchanged; in particular
O = (0,0,0), A = (2,0,0), B = (0,1,0) yields the unit axes
eX = (1,0,0), eY = (0,1,0), eZ = (0,0,1). -/
theorem get_referential_scale_invariance :
    (∀ (O A B : Vec3) (s t : ℝ), A ≠ O → B ≠ O → cross3 (A - O) (B - O) ≠ 0 →
        0 < s → 0 < t →
        get_referential O (O + s • (A - O)) (O + t • (B - O)) = get_referential O A B) ∧
    get_referential ⟨0, 0, 0⟩ ⟨2, 0, 0⟩ ⟨0, 1, 0⟩ = (⟨1, 0, 0⟩, ⟨0, 1, 0⟩, ⟨0, 0, 1⟩) := by
  constructor
  · intro O A B s t hA hB hpar hs ht
    have h1 : O + s • (A - O) - O = s • (A - O) := by ext <;> simp
    have h2 : O + t • (B - O) - O = t • (B - O) := by ext <;> simp
    rw [get_referential_def, get_referential_def, h1, h2,
      normalize3_smul_pos s hs, normalize3_smul_pos t ht]
  · have h4 : Real.sqrt 4 = 2 := by
      rw [show (4 : ℝ) = 2 ^ 2 by norm_num]
      exact Real.sqrt_sq (by norm_num)
    have e1 : normalize3 (⟨2, 0, 0⟩ : Vec3) = ⟨1, 0, 0⟩ := by
      unfold normalize3 vdiv norm3 dot3
      norm_num [h4, Vec3.mk.injEq]
    have e2 : normalize3 (⟨0, 1, 0⟩ : Vec3) = ⟨0, 1, 0⟩ := by
      unfold normalize3 vdiv norm3 dot3
      norm_num [Real.sqrt_one, Vec3.mk.injEq]
    have e3 : cross3 (⟨1, 0, 0⟩ : Vec3) ⟨0, 1, 0⟩ = ⟨0, 0, 1⟩ := by
      norm_num [cross3, Vec3.mk.injEq]
    have e4 : normalize3 (⟨0, 0, 1⟩ : Vec3) = ⟨0, 0, 1⟩ := by
      unfold normalize3 vdiv norm3 dot3
      norm_num [Real.sqrt_one, Vec3.mk.injEq]
    have e5 : cross3 (⟨0, 0, 1⟩ : Vec3) ⟨1, 0, 0⟩ = ⟨0, 1, 0⟩ := by
      norm_num [cross3, Vec3.mk.injEq]
    have s1 : (⟨2, 0, 0⟩ : Vec3) - ⟨0, 0, 0⟩ = ⟨2, 0, 0⟩ := by
      norm_num [Vec3.sub_def, Vec3.mk.injEq]
    have s2 : (⟨0, 1, 0⟩ : Vec3) - ⟨0, 0, 0⟩ = ⟨0, 1, 0⟩ := by
      norm_num [Vec3.sub_def, Vec3.mk.injEq]
    rw [get_referential_def, s1, s2, e1, e2, e3, e4, e5]

/-- Witness for C8 at O = (0,0,0), A = (1,0,0), B = (0,1,0), s = 2,
t = 3. -/
theorem get_referential_scale_invariance_witness :
    ((⟨1, 0, 0⟩ : Vec3) ≠ ⟨0, 0, 0⟩) ∧ ((⟨0, 1, 0⟩ : Vec3) ≠ ⟨0, 0, 0⟩) ∧
    cross3 ((⟨1, 0, 0⟩ : Vec3) - ⟨0, 0, 0⟩) ((⟨0, 1, 0⟩ : Vec3) - ⟨0, 0, 0⟩) ≠ 0 ∧
    (0 : ℝ) < 2 ∧ (0 : ℝ) < 3 ∧
    get_referential ⟨0, 0, 0⟩ ((⟨0, 0, 0⟩ : Vec3) + (2 : ℝ) • ((⟨1, 0, 0⟩ : Vec3) - ⟨0, 0, 0⟩))
        ((⟨0, 0, 0⟩ : Vec3) + (3 : ℝ) • ((⟨0, 1, 0⟩ : Vec3) - ⟨0, 0, 0⟩)) =
      get_referential ⟨0, 0, 0⟩ ⟨1, 0, 0⟩ ⟨0, 1, 0⟩ := by
  have h1 : (⟨1, 0, 0⟩ : Vec3) ≠ ⟨0, 0, 0⟩ := by simp [Vec3.mk.injEq]
  have h2 : (⟨0, 1, 0⟩ : Vec3) ≠ ⟨0, 0, 0⟩ := by simp [Vec3.mk.injEq]
  have h3 : cross3 ((⟨1, 0, 0⟩ : Vec3) - ⟨0, 0, 0⟩) ((⟨0, 1, 0⟩ : Vec3) - ⟨0, 0, 0⟩) ≠ 0 := by
    norm_num [cross3, Vec3.ext_iff]
  exact ⟨h1, h2, h3, by norm_num, by norm_num,
    get_referential_scale_invariance.1 _ _ _ _ _ h1 h2 h3 (by norm_num) (by norm_num)⟩

/-- C4: `transform_coordinates` returns, in each stage-axis component k,
exactly `O_k + x*eX_k + y*eY_k + z*eZ_k`; in particular, with
O = (0,0,0), eX = (0,1,0), eY = (−1,0,0), eZ = (0,0,1) the point (1,1,1)
maps to (−1,1,1) and (0,0,0) maps to (0,0,0). -/
theorem transform_coordinates_componentwise :
    (∀ (x y z : ℝ) (O eX eY eZ : Vec3),
        transform_coordinates x y z O eX eY eZ =
          (O.x + x * eX.x + y * eY.x + z * eZ.x,
           O.y + x * eX.y + y * eY.y + z * eZ.y,
           O.z + x * eX.z + y * eY.z + z * eZ.z)) ∧
    transform_coordinates 1 1 1 ⟨0, 0, 0⟩ ⟨0, 1, 0⟩ ⟨-1, 0, 0⟩ ⟨0, 0, 1⟩ = (-1, 1, 1) ∧
    transform_coordinates 0 0 0 ⟨0, 0, 0⟩ ⟨0, 1, 0⟩ ⟨-1, 0, 0⟩ ⟨0, 0, 1⟩ = (0, 0, 0) := by
  refine ⟨fun x y z O eX eY eZ => rfl, ?_, ?_⟩ <;>
    norm_num [transform_coordinates, Prod.mk.injEq]

/-- C5: round trip — for any orthonormal basis (eX, eY, eZ), origin O
and point P, feeding the plane-local coordinates of P (obtained by the
inverse basis change, the dot products of P−O with the basis) back
through `transform_coordinates` reproduces P. -/
theorem transform_coordinates_roundtrip (O eX eY eZ P : Vec3)
    (hnx : norm3 eX = 1) (hny : norm3 eY = 1) (hnz : norm3 eZ = 1)
    (hxy : dot3 eX eY = 0) (hxz : dot3 eX eZ = 0) (hyz : dot3 eY eZ = 0) :
    transform_coordinates (dot3 (P - O) eX) (dot3 (P - O) eY) (dot3 (P - O) eZ) O eX eY eZ
      = (P.x, P.y, P.z) := by
  have dxx : eX.x * eX.x + eX.y * eX.y + eX.z * eX.z = 1 := by
    have h := norm3_mul_self eX
    rw [hnx] at h
    simpa [dot3] using h.symm
  have dyy : eY.x * eY.x + eY.y * eY.y + eY.z * eY.z = 1 := by
    have h := norm3_mul_self eY
    rw [hny] at h
    simpa [dot3] using h.symm
  have dzz : eZ.x * eZ.x + eZ.y * eZ.y + eZ.z * eZ.z = 1 := by
    have h := norm3_mul_self eZ
    rw [hnz] at h
    simpa [dot3] using h.symm
  have dxy : eX.x * eY.x + eX.y * eY.y + eX.z * eY.z = 0 := by simpa [dot3] using hxy
  have dxz : eX.x * eZ.x + eX.y * eZ.y + eX.z * eZ.z = 0 := by simpa [dot3] using hxz
  have dyz : eY.x * eZ.x + eY.y * eZ.y + eY.z * eZ.z = 0 := by simpa [dot3] using hyz
  set M : Matrix (Fin 3) (Fin 3) ℝ :=
    !![eX.x, eX.y, eX.z; eY.x, eY.y, eY.z; eZ.x, eZ.y, eZ.z] with hM
  have hMT : M.transpose = !![eX.x, eY.x, eZ.x; eX.y, eY.y, eZ.y; eX.z, eY.z, eZ.z] := by
    rw [hM]
    ext i j
    fin_cases i <;> fin_cases j <;> rfl
  have hMMT : M * M.transpose = 1 := by
    rw [hM, hMT]
    ext i j
    fin_cases i <;> fin_cases j <;>
      simp [Matrix.mul_apply, Fin.sum_univ_three, Matrix.one_apply] <;>
      first
        | linear_combination dxx
        | linear_combination dyy
        | linear_combination dzz
        | linear_combination dxy
        | linear_combination dxz
        | linear_combination dyz
  have hMTM : M.transpose * M = 1 := Matrix.mul_eq_one_comm.mp hMMT
  have key : ∀ i j,
      ((!![eX.x, eY.x, eZ.x; eX.y, eY.y, eZ.y; eX.z, eY.z, eZ.z] *
        !![eX.x, eX.y, eX.z; eY.x, eY.y, eY.z; eZ.x, eZ.y, eZ.z] :
          Matrix (Fin 3) (Fin 3) ℝ)) i j = (1 : Matrix (Fin 3) (Fin 3) ℝ) i j := by
    intro i j
    rw [← hMT, ← hM, hMTM]
  have k00 := key 0 0
  have k01 := key 0 1
  have k02 := key 0 2
  have k10 := key 1 0
  have k11 := key 1 1
  have k12 := key 1 2
  have k20 := key 2 0
  have k21 := key 2 1
  have k22 := key 2 2
  simp [Matrix.mul_apply, Fin.sum_univ_three, Matrix.one_apply]
    at k00 k01 k02 k10 k11 k12 k20 k21 k22
  simp only [transform_coordinates, dot3, Vec3.sub_def, Prod.mk.injEq]
  refine ⟨?_, ?_, ?_⟩
  · linear_combination (P.x - O.x) * k00 + (P.y - O.y) * k10 + (P.z - O.z) * k20
  · linear_combination (P.x - O.x) * k01 + (P.y - O.y) * k11 + (P.z - O.z) * k21
  · linear_combination (P.x - O.x) * k02 + (P.y - O.y) * k12 + (P.z - O.z) * k22

/-- Witness for C5 with the rotated orthonormal basis eX = (0,1,0),
eY = (−1,0,0), eZ = (0,0,1), origin O = (1,2,3) and point P = (4,5,6). -/
theorem transform_coordinates_roundtrip_witness :
    norm3 ⟨0, 1, 0⟩ = 1 ∧ norm3 ⟨-1, 0, 0⟩ = 1 ∧ norm3 ⟨0, 0, 1⟩ = 1 ∧
    dot3 ⟨0, 1, 0⟩ ⟨-1, 0, 0⟩ = 0 ∧ dot3 ⟨0, 1, 0⟩ ⟨0, 0, 1⟩ = 0 ∧
    dot3 ⟨-1, 0, 0⟩ ⟨0, 0, 1⟩ = 0 ∧
    transform_coordinates (dot3 ((⟨4, 5, 6⟩ : Vec3) - ⟨1, 2, 3⟩) ⟨0, 1, 0⟩)
        (dot3 ((⟨4, 5, 6⟩ : Vec3) - ⟨1, 2, 3⟩) ⟨-1, 0, 0⟩)
        (dot3 ((⟨4, 5, 6⟩ : Vec3) - ⟨1, 2, 3⟩) ⟨0, 0, 1⟩)
        ⟨1, 2, 3⟩ ⟨0, 1, 0⟩ ⟨-1, 0, 0⟩ ⟨0, 0, 1⟩ = (4, 5, 6) := by
  have hnx : norm3 (⟨0, 1, 0⟩ : Vec3) = 1 := by
    norm_num [norm3, dot3, Real.sqrt_one]
  have hny : norm3 (⟨-1, 0, 0⟩ : Vec3) = 1 := by
    norm_num [norm3, dot3, Real.sqrt_one]
  have hnz : norm3 (⟨0, 0, 1⟩ : Vec3) = 1 := by
    norm_num [norm3, dot3, Real.sqrt_one]
  have hxy : dot3 (⟨0, 1, 0⟩ : Vec3) ⟨-1, 0, 0⟩ = 0 := by norm_num [dot3]
  have hxz : dot3 (⟨0, 1, 0⟩ : Vec3) ⟨0, 0, 1⟩ = 0 := by norm_num [dot3]
  have hyz : dot3 (⟨-1, 0, 0⟩ : Vec3) ⟨0, 0, 1⟩ = 0 := by norm_num [dot3]
  refine ⟨hnx, hny, hnz, hxy, hxz, hyz, ?_⟩
  have h := transform_coordinates_roundtrip ⟨1, 2, 3⟩ ⟨0, 1, 0⟩ ⟨-1, 0, 0⟩ ⟨0, 0, 1⟩
    ⟨4, 5, 6⟩ hnx hny hnz hxy hxz hyz
  simpa using h

lemma linspace_length (a b : ℚ) (n : ℕ) : (linspace a b n).length = n := by
  unfold linspace
  by_cases h : n = 1
  · rw [if_pos h, h]
    rfl
  · rw [if_neg h]
    simp

lemma linspace_one (a b : ℚ) : linspace a b 1 = [a] := by
  unfold linspace
  rw [if_pos rfl]

lemma linspace_zero (a b : ℚ) : linspace a b 0 = [] := by
  unfold linspace
  rw [if_neg (by omega)]
  rfl

lemma linspace_getD (a b : ℚ) (n i : ℕ) (hn : 2 ≤ n) (hi : i < n) :
    (linspace a b n).getD i 0 = a + (b - a) * (i : ℚ) / ((n : ℚ) - 1) := by
  unfold linspace
  rw [if_neg (by omega)]
  have hlen :
      i < ((List.range n).map (fun (j : ℕ) => a + (b - a) * (j : ℚ) / ((n : ℚ) - 1))).length := by
    simpa using hi
  rw [List.getD_eq_getElem _ _ hlen, List.getElem_map, List.getElem_range]

lemma maskRow_eq_specRow (row : List ℤ) (xs : List ℚ) (yv : ℚ) (fx : ℕ → ℚ) (k : ℕ)
    (hlen : row.length ≤ xs.length)
    (hxs : ∀ i, i < xs.length → xs.getD i 0 = fx (k + i)) :
    maskRow row xs yv = specRow row k fx yv := by
  induction row generalizing xs k with
  | nil => cases xs <;> rfl
  | cons v vs ih =>
    cases xs with
    | nil => simp at hlen
    | cons xc xcs =>
      have hx0 : xc = fx k := by simpa using hxs 0 (by simp)
      have hrec : maskRow vs xcs yv = specRow vs (k + 1) fx yv := by
        apply ih
        · have h1 := hlen
          simp only [List.length_cons] at h1
          omega
        · intro i hi
          have h := hxs (i + 1) (by simp only [List.length_cons]; omega)
          rw [show k + 1 + i = k + (i + 1) by omega]
          simpa using h
      simp only [maskRow, specRow]
      rw [hx0, hrec]

lemma maskSelect_eq_specRows (rows : List (List ℤ)) (xs ys : List ℚ)
    (fx fy : ℕ → ℚ) (k : ℕ)
    (hlen : rows.length ≤ ys.length)
    (hys : ∀ j, j < ys.length → ys.getD j 0 = fy (k + j))
    (hrows : ∀ row ∈ rows, row.length ≤ xs.length)
    (hxs : ∀ i, i < xs.length → xs.getD i 0 = fx i) :
    maskSelect rows xs ys = specRows rows k fx fy := by
  induction rows generalizing ys k with
  | nil => cases ys <;> rfl
  | cons r rs ih =>
    cases ys with
    | nil => simp at hlen
    | cons yv yvs =>
      have hy0 : yv = fy k := by simpa using hys 0 (by simp)
      have hrow0 : maskRow r xs yv = specRow r 0 fx yv :=
        maskRow_eq_specRow r xs yv fx 0 (hrows r (by simp))
          (fun i hi => by simpa using hxs i hi)
      have hrec : maskSelect rs xs yvs = specRows rs (k + 1) fx fy := by
        apply ih
        · have h1 := hlen
          simp only [List.length_cons] at h1
          omega
        · intro j hj
          have h := hys (j + 1) (by simp only [List.length_cons]; omega)
          rw [show k + 1 + j = k + (j + 1) by omega]
          simpa using h
        · intro row hrow
          exact hrows row (by simp [hrow])
      rw [hy0] at hrow0
      simp only [maskSelect, specRows]
      rw [hy0, hrow0, hrec]

/-- C3 (amended): for every rectangular grid with at least two rows and
two columns, entries in {0,1}, and positive width and height,
`get_black_points` returns exactly one coordinate pair per zero cell and
none for other cells, in row-major order, with column i mapped to
`-width/2 + i*(width/(Nx-1))` and row j to `height/2 - j*(height/(Ny-1))`
(so the leftmost column is at -width/2, the rightmost at +width/2, the
top row at +height/2 and the bottom row at -height/2); the concrete 3x3
example of the claim also holds.  The endpoint interpolation requires at
least two pixels per axis; single-row and single-column grids are
covered separately. -/
theorem get_black_points_matches_spec :
    (∀ (data : List (List ℤ)) (w h : ℚ),
        (∀ row ∈ data, row.length = (data.headD []).length) →
        (∀ row ∈ data, ∀ v ∈ row, v = 0 ∨ v = 1) →
        2 ≤ (data.headD []).length → 2 ≤ data.length → 0 < w → 0 < h →
        get_black_points data w h =
          Except.ok ((specExposed data w h).map Prod.fst,
            (specExposed data w h).map Prod.snd)) ∧
    get_black_points [[1, 1, 1], [0, 1, 1], [1, 0, 1]] 2 4 =
      Except.ok ([-1, 0], [0, -2]) := by
  constructor
  · intro data w h hrect hvals hNx hNy hw hh
    cases data with
    | nil => simp at hNy
    | cons r rs =>
      simp only [List.headD_cons] at hNx hrect
      unfold specExposed
      simp only [List.headD_cons, get_black_points]
      have hsel : maskSelect (r :: rs) (linspace (-w / 2) (w / 2) r.length)
          (linspace (h / 2) (-h / 2) (r :: rs).length) =
          specRows (r :: rs) 0 (xLin w r.length) (yLin h (r :: rs).length) := by
        apply maskSelect_eq_specRows
        · rw [linspace_length]
        · intro j hj
          rw [linspace_length] at hj
          rw [linspace_getD _ _ _ _ hNy hj]
          unfold yLin
          push_cast
          ring
        · intro row hrow
          rw [linspace_length]
          exact le_of_eq (hrect row hrow)
        · intro i hi
          rw [linspace_length] at hi
          rw [linspace_getD _ _ _ _ hNx hi]
          unfold xLin
          ring
      rw [hsel]
  · norm_num [get_black_points, linspace, maskSelect, maskRow, List.range_succ]

/-- Witness for C3 at the 3x3 grid of the claim, width 2, height 4. -/
theorem get_black_points_matches_spec_witness :
    (∀ row ∈ ([[1, 1, 1], [0, 1, 1], [1, 0, 1]] : List (List ℤ)),
        row.length = (([[1, 1, 1], [0, 1, 1], [1, 0, 1]] : List (List ℤ)).headD []).length) ∧
    (∀ row ∈ ([[1, 1, 1], [0, 1, 1], [1, 0, 1]] : List (List ℤ)),
        ∀ v ∈ row, v = 0 ∨ v = 1) ∧
    2 ≤ (([[1, 1, 1], [0, 1, 1], [1, 0, 1]] : List (List ℤ)).headD []).length ∧
    2 ≤ ([[1, 1, 1], [0, 1, 1], [1, 0, 1]] : List (List ℤ)).length ∧
    (0 : ℚ) < 2 ∧ (0 : ℚ) < 4 ∧
    get_black_points [[1, 1, 1], [0, 1, 1], [1, 0, 1]] 2 4 =
      Except.ok ((specExposed [[1, 1, 1], [0, 1, 1], [1, 0, 1]] 2 4).map Prod.fst,
        (specExposed [[1, 1, 1], [0, 1, 1], [1, 0, 1]] 2 4).map Prod.snd) := by
  have h1 : ∀ row ∈ ([[1, 1, 1], [0, 1, 1], [1, 0, 1]] : List (List ℤ)),
      row.length = (([[1, 1, 1], [0, 1, 1], [1, 0, 1]] : List (List ℤ)).headD []).length := by
    decide
  have h2 : ∀ row ∈ ([[1, 1, 1], [0, 1, 1], [1, 0, 1]] : List (List ℤ)),
      ∀ v ∈ row, v = 0 ∨ v = 1 := by decide
  have h3 : 2 ≤ (([[1, 1, 1], [0, 1, 1], [1, 0, 1]] : List (List ℤ)).headD []).length := by
    decide
  have h4 : 2 ≤ ([[1, 1, 1], [0, 1, 1], [1, 0, 1]] : List (List ℤ)).length := by decide
  have h5 : (0 : ℚ) < 2 := by norm_num
  have h6 : (0 : ℚ) < 4 := by norm_num
  exact ⟨h1, h2, h3, h4, h5, h6,
    get_black_points_matches_spec.1 _ _ _ h1 h2 h3 h4 h5 h6⟩

/-- Counterexample to C3 as stated: on the one-column grid [[0]] with
width 2 the unique column is also the rightmost column, which the claim
maps to +width/2 = 1; the code instead places the exposed pixel at
x = -1 (and numpy linspace with a single sample returns the start
point). -/
theorem get_black_points_single_column_counterexample :
    get_black_points [[0]] 2 4 = Except.ok ([-1], [2]) ∧ ((-1 : ℚ) ≠ 2 / 2) := by
  constructor
  · norm_num [get_black_points, linspace, maskSelect, maskRow, List.range_succ]
  · norm_num

/-- C6 (amended): `get_black_points` performs no validation of width or
height: on every grid with at least one row it succeeds for every width
and height, zero and negative values included.  No InvalidExtent error
exists in the repository (the GUI layer only rejects exactly-zero
values through its `nonzero_validator`). -/
theorem get_black_points_ignores_extent :
    ∀ (r : List ℤ) (rs : List (List ℤ)) (w h : ℚ),
      ∃ p, get_black_points (r :: rs) w h = Except.ok p := by
  intro r rs w h
  exact ⟨_, rfl⟩

/-- Counterexample to C6 as stated: with zero width and negative height
on the grid [[0]] the call succeeds — returning the degenerate
coordinates — instead of failing with InvalidExtent. -/
theorem get_black_points_zero_extent_counterexample :
    get_black_points [[0]] 0 (-3) = Except.ok ([0], [-3 / 2]) := by
  norm_num [get_black_points, linspace, maskSelect, maskRow, List.range_succ]

lemma maskRow_nil_xs (row : List ℤ) (yv : ℚ) : maskRow row [] yv = [] := by
  cases row <;> rfl

lemma maskSelect_nil_xs (rows : List (List ℤ)) (ys : List ℚ) :
    maskSelect rows [] ys = [] := by
  induction rows generalizing ys with
  | nil => cases ys <;> rfl
  | cons r rs ih =>
    cases ys with
    | nil => rfl
    | cons yv yvs => simp [maskSelect, maskRow_nil_xs, ih]

/-- C7 (amended): the only grids on which `get_black_points` fails are
those with zero rows, and the failure is the numpy shape-unpacking
ValueError, not a named EmptyGrid error; a grid whose rows have zero
length does not fail at all — it succeeds with empty coordinate
lists. -/
theorem get_black_points_empty_grid_behavior :
    (∀ (w h : ℚ), get_black_points [] w h = Except.error NpError.valueError) ∧
    (∀ (rs : List (List ℤ)) (w h : ℚ),
        get_black_points ([] :: rs) w h = Except.ok ([], [])) := by
  constructor
  · intro w h
    rfl
  · intro rs w h
    simp only [get_black_points, List.length_nil, linspace_zero, maskSelect_nil_xs,
      List.map_nil]

/-- Counterexample to C7 as stated: the two-row, zero-column grid
[[],[]] succeeds with empty output instead of failing with an EmptyGrid
error. -/
theorem get_black_points_zero_columns_counterexample :
    get_black_points [[], []] 1 1 = Except.ok ([], []) := by
  norm_num [get_black_points, linspace, maskSelect, maskRow, List.range_succ]

lemma mem_maskRow (row : List ℤ) (xs : List ℚ) (yv : ℚ) (p : ℚ × ℚ)
    (hp : p ∈ maskRow row xs yv) : p.1 ∈ xs ∧ p.2 = yv := by
  induction row generalizing xs with
  | nil =>
    rw [show maskRow [] xs yv = [] from by cases xs <;> rfl] at hp
    simp at hp
  | cons v vs ih =>
    cases xs with
    | nil =>
      rw [maskRow_nil_xs] at hp
      simp at hp
    | cons xc xcs =>
      simp only [maskRow] at hp
      by_cases hv : v = 0
      · rw [if_pos hv] at hp
        rcases List.mem_cons.mp hp with h | h
        · rw [h]
          exact ⟨by simp, rfl⟩
        · obtain ⟨h1, h2⟩ := ih xcs h
          exact ⟨List.mem_cons_of_mem _ h1, h2⟩
      · rw [if_neg hv] at hp
        obtain ⟨h1, h2⟩ := ih xcs hp
        exact ⟨List.mem_cons_of_mem _ h1, h2⟩

lemma mem_maskSelect (rows : List (List ℤ)) (xs ys : List ℚ) (p : ℚ × ℚ)
    (hp : p ∈ maskSelect rows xs ys) : p.1 ∈ xs ∧ p.2 ∈ ys := by
  induction rows generalizing ys with
  | nil =>
    rw [show maskSelect [] xs ys = [] from by cases ys <;> rfl] at hp
    simp at hp
  | cons r rs ih =>
    cases ys with
    | nil => simp [maskSelect] at hp
    | cons yv yvs =>
      simp only [maskSelect, List.mem_append] at hp
      rcases hp with h | h
      · obtain ⟨h1, h2⟩ := mem_maskRow r xs yv p h
        exact ⟨h1, by rw [h2]; simp⟩
      · obtain ⟨h1, h2⟩ := ih yvs h
        exact ⟨h1, List.mem_cons_of_mem _ h2⟩

/-- C10: on a grid with exactly one column, every exposed pixel gets
x = -width/2 (and not 0); on a grid with exactly one row, every exposed
pixel gets y = +height/2 (and not 0) — numpy linspace with a single
sample returns only its start point, so the linear span from -width/2
to +width/2 (resp. +height/2 to -height/2) needs at least two pixels on
the axis. -/
theorem get_black_points_single_pixel_dims (data : List (List ℤ)) (w h : ℚ)
    (xs ys : List ℚ) (hw : 0 < w) (hh : 0 < h)
    (hok : get_black_points data w h = Except.ok (xs, ys)) :
    ((data.headD []).length = 1 → ∀ a ∈ xs, a = -w / 2 ∧ a ≠ 0) ∧
    (data.length = 1 → ∀ b ∈ ys, b = h / 2 ∧ b ≠ 0) := by
  cases data with
  | nil => simp [get_black_points] at hok
  | cons r rs =>
    simp only [get_black_points, Except.ok.injEq, Prod.mk.injEq] at hok
    obtain ⟨hxs, hys⟩ := hok
    simp only [List.headD_cons]
    constructor
    · intro hNx a ha
      rw [← hxs] at ha
      obtain ⟨p, hp, hpa⟩ := List.mem_map.mp ha
      have hmem := (mem_maskSelect _ _ _ _ hp).1
      rw [hNx, linspace_one, List.mem_singleton] at hmem
      have hav : a = -w / 2 := by rw [← hpa, hmem]
      refine ⟨hav, ?_⟩
      rw [hav]
      have : -w / 2 < 0 := by linarith
      exact this.ne
    · intro hNy b hb
      rw [← hys] at hb
      obtain ⟨p, hp, hpb⟩ := List.mem_map.mp hb
      have hmem := (mem_maskSelect _ _ _ _ hp).2
      rw [hNy, linspace_one, List.mem_singleton] at hmem
      have hbv : b = h / 2 := by rw [← hpb, hmem]
      refine ⟨hbv, ?_⟩
      rw [hbv]
      have : 0 < h / 2 := by linarith
      exact this.ne'

/-- Witness for C10 at the 1x1 grid [[0]] with width 2 and height 4,
where both the single-column and the single-row cases apply. -/
theorem get_black_points_single_pixel_dims_witness :
    (0 : ℚ) < 2 ∧ (0 : ℚ) < 4 ∧
    get_black_points [[0]] 2 4 = Except.ok ([-1], [2]) ∧
    (((([[0]] : List (List ℤ)).headD []).length = 1 →
        ∀ a ∈ [(-1 : ℚ)], a = -2 / 2 ∧ a ≠ 0) ∧
     (([[0]] : List (List ℤ)).length = 1 → ∀ b ∈ [(2 : ℚ)], b = 4 / 2 ∧ b ≠ 0)) := by
  have hok : get_black_points [[0]] 2 4 = Except.ok ([-1], [2]) := by
    norm_num [get_black_points, linspace, maskSelect, maskRow, List.range_succ]
  exact ⟨by norm_num, by norm_num, hok,
    get_black_points_single_pixel_dims _ _ _ _ _ (by norm_num) (by norm_num) hok⟩
